import Mathlib

/-!
Verification of the Pi-hole configuration monitor.

This file gives a shallow embedding of the two source files of the
repository (`monitor/pi_hole_config_hash.py` and `monitor/monitor.py`)
and proves properties of the embedded definitions.

Modelling conventions:
* Python `str` is Lean `String`; byte strings are `List Nat` with every
  element below 256.
* Timestamps (`time.time()`) and the numeric values this program stores in
  its JSON records are modelled as `Int` (every number the program itself
  writes is an integral number of seconds, `f"{x:.0f}"`).
* JSON values are the inductive `PyJson` with integer numbers; Python
  dictionaries are ordered association lists with pairwise-distinct keys,
  exactly the values `json.loads` can produce.
* The I/O boundary (HTTP fetches, the two state files) is passed in
  explicitly as data; fallible steps are `Except`.
* `hashlib.md5` is implemented bit-for-bit (RFC 1321) on byte lists.
-/

/-! ## Python string helpers: `str.strip()` (as used by `read_previous_hash`
and by `float(...)` on strings) -/

/-- Whitespace characters stripped by Python `str.strip()` (ASCII range). -/
def isPySpace (c : Char) : Bool :=
  c = ' ' || c = '\t' || c = '\n' || c = '\r' || c = '\x0b' || c = '\x0c'

/-- Drop leading whitespace of a character list. -/
def lstripL (l : List Char) : List Char := l.dropWhile isPySpace

/-- Drop trailing whitespace of a character list. -/
def rstripL (l : List Char) : List Char := (l.reverse.dropWhile isPySpace).reverse

/-- Model of Python `str.strip()`. -/
def pyStrip (s : String) : String := ⟨rstripL (lstripL s.data)⟩

/-! ## Decimal digits: printing (`str(int)` / `f"{x:.0f}"`) and parsing
(the integral fragment of `float(str)`) -/

/-- The character for a decimal digit value. -/
def decDigitChar (d : Nat) : Char :=
  match d with
  | 0 => '0' | 1 => '1' | 2 => '2' | 3 => '3' | 4 => '4'
  | 5 => '5' | 6 => '6' | 7 => '7' | 8 => '8' | _ => '9'

/-- Numeric value of a decimal digit character, if it is one. -/
def digitVal (c : Char) : Option Nat :=
  if c = '0' then some 0 else if c = '1' then some 1
  else if c = '2' then some 2 else if c = '3' then some 3
  else if c = '4' then some 4 else if c = '5' then some 5
  else if c = '6' then some 6 else if c = '7' then some 7
  else if c = '8' then some 8 else if c = '9' then some 9
  else none

/-- Decimal digits, least significant first, with a structural fuel bound
(a number never has more digits than its own value). -/
def natDigitsRevAux : Nat → Nat → List Char
  | 0, _ => []
  | fuel + 1, n =>
    if n = 0 then [] else decDigitChar (n % 10) :: natDigitsRevAux fuel (n / 10)

/-- Decimal digits of a natural number, least significant first. -/
def natDigitsRev (n : Nat) : List Char := natDigitsRevAux n n

/-- The fuel does not matter as long as it is sufficient. -/
theorem natDigitsRevAux_congr :
    ∀ (f1 f2 n : Nat), n ≤ f1 → n ≤ f2 →
      natDigitsRevAux f1 n = natDigitsRevAux f2 n
  | 0, f2, n, h1, _ => by
    have hn : n = 0 := by omega
    subst hn
    cases f2 <;> simp [natDigitsRevAux]
  | f1 + 1, f2, n, h1, h2 => by
    cases f2 with
    | zero =>
      have hn : n = 0 := by omega
      subst hn
      simp [natDigitsRevAux]
    | succ f2 =>
      simp only [natDigitsRevAux]
      by_cases hn : n = 0
      · simp [hn]
      · have hdiv : n / 10 < n := Nat.div_lt_self (Nat.pos_of_ne_zero hn) (by omega)
        rw [if_neg hn, if_neg hn,
          natDigitsRevAux_congr f1 f2 (n / 10) (by omega) (by omega)]

/-- Decimal rendering of a natural number. -/
def natToString (n : Nat) : String :=
  if n = 0 then "0" else ⟨(natDigitsRev n).reverse⟩

/-- Decimal rendering of an integer: Python `str(int)` and, on integral
values, `f"{x:.0f}"`. -/
def intToDecString (i : Int) : String :=
  if i < 0 then "-" ++ natToString i.natAbs else natToString i.toNat

/-- Accumulate a digit string into a number; `none` on a non-digit. -/
def parseDigitsAux : Nat → List Char → Option Nat
  | acc, [] => some acc
  | acc, c :: cs =>
    match digitVal c with
    | some d => parseDigitsAux (acc * 10 + d) cs
    | none => none

/-- Parse a non-empty all-digit string. -/
def parseDigits : List Char → Option Nat
  | [] => none
  | l => parseDigitsAux 0 l

/-- The fragment of Python `float(str)` this program can meet: surrounding
whitespace is stripped, then an optional sign and a non-empty digit string
(every value the program itself persists has this form, written by
`f"{adjusted_expires:.0f}"`). Non-numeric strings give `none`
(`ValueError`, which the source catches). -/
def parsePyNumber (s : String) : Option Int :=
  match (pyStrip s).data with
  | [] => none
  | c :: rest =>
    if c = '-' then (parseDigits rest).map (fun n => -(n : Int))
    else if c = '+' then (parseDigits rest).map (fun n => (n : Int))
    else (parseDigits (c :: rest)).map (fun n => (n : Int))

/-! ## MD5 (RFC 1321), on byte lists, producing the lowercase hex digest
exactly as `hashlib.md5(...).hexdigest()` does -/

/-- Reduce modulo 2^32. -/
def w32 (n : Nat) : Nat := n % 4294967296

/-- 32-bit addition. -/
def wadd (a b : Nat) : Nat := (a + b) % 4294967296

/-- 32-bit complement (for inputs below 2^32). -/
def wnot (a : Nat) : Nat := 4294967295 - a % 4294967296

/-- 32-bit left rotation (for inputs below 2^32 and `0 < s < 32`). -/
def rotl (x s : Nat) : Nat := (x * 2 ^ s) % 4294967296 + x % 4294967296 / 2 ^ (32 - s)

/-- Round function of rounds 0-15. -/
def mdF (b c d : Nat) : Nat := (b &&& c) ||| (wnot b &&& d)

/-- Round function of rounds 16-31. -/
def mdG (b c d : Nat) : Nat := (b &&& d) ||| (c &&& wnot d)

/-- Round function of rounds 32-47. -/
def mdH (b c d : Nat) : Nat := b ^^^ c ^^^ d

/-- Round function of rounds 48-63. -/
def mdI (b c d : Nat) : Nat := c ^^^ (b ||| wnot d)

/-- Per-round left-rotation amounts. -/
def mdShift : List Nat :=
  [7, 12, 17, 22, 7, 12, 17, 22, 7, 12, 17, 22, 7, 12, 17, 22,
   5, 9, 14, 20, 5, 9, 14, 20, 5, 9, 14, 20, 5, 9, 14, 20,
   4, 11, 16, 23, 4, 11, 16, 23, 4, 11, 16, 23, 4, 11, 16, 23,
   6, 10, 15, 21, 6, 10, 15, 21, 6, 10, 15, 21, 6, 10, 15, 21]

/-- Per-round additive constants, `floor(2^32 * abs(sin(i + 1)))`. -/
def mdSine : List Nat :=
  [3614090360, 3905402710, 606105819, 3250441966,
   4118548399, 1200080426, 2821735955, 4249261313,
   1770035416, 2336552879, 4294925233, 2304563134,
   1804603682, 4254626195, 2792965006, 1236535329,
   4129170786, 3225465664, 643717713, 3921069994,
   3593408605, 38016083, 3634488961, 3889429448,
   568446438, 3275163606, 4107603335, 1163531501,
   2850285829, 4243563512, 1735328473, 2368359562,
   4294588738, 2272392833, 1839030562, 4259657740,
   2763975236, 1272893353, 4139469664, 3200236656,
   681279174, 3936430074, 3572445317, 76029189,
   3654602809, 3873151461, 530742520, 3299628645,
   4096336452, 1126891415, 2878612391, 4237533241,
   1700485571, 2399980690, 4293915773, 2240044497,
   1873313359, 4264355552, 2734768916, 1309151649,
   4149444226, 3174756917, 718787259, 3951481745]

/-- Little-endian bytes of a number, fixed width. -/
def leBytes : Nat → Nat → List Nat
  | 0, _ => []
  | k + 1, n => n % 256 :: leBytes k (n / 256)

/-- The `j`-th little-endian 32-bit word of a 64-byte block. -/
def leWord (block : List Nat) (j : Nat) : Nat :=
  block.getD (4 * j) 0 + 256 * block.getD (4 * j + 1) 0 +
    65536 * block.getD (4 * j + 2) 0 + 16777216 * block.getD (4 * j + 3) 0

/-- One of the 64 rounds of MD5 on a single block. -/
def md5step (block : List Nat) (st : Nat × Nat × Nat × Nat) (i : Nat) :
    Nat × Nat × Nat × Nat :=
  let (a, b, c, d) := st
  let f :=
    if i < 16 then mdF b c d
    else if i < 32 then mdG b c d
    else if i < 48 then mdH b c d
    else mdI b c d
  let g :=
    if i < 16 then i
    else if i < 32 then (5 * i + 1) % 16
    else if i < 48 then (3 * i + 5) % 16
    else (7 * i) % 16
  let sum := w32 (f + a + mdSine.getD i 0 + leWord block g)
  (d, wadd b (rotl sum (mdShift.getD i 0)), b, c)

/-- Process one 64-byte block. -/
def md5block (st : Nat × Nat × Nat × Nat) (block : List Nat) :
    Nat × Nat × Nat × Nat :=
  let r := (List.range 64).foldl (md5step block) st
  (wadd st.1 r.1, wadd st.2.1 r.2.1, wadd st.2.2.1 r.2.2.1, wadd st.2.2.2 r.2.2.2)

/-- MD5 padding: a 1-bit, zeros to 56 mod 64, then the 64-bit bit length. -/
def md5pad (msg : List Nat) : List Nat :=
  let padLen := (119 - msg.length % 64) % 64
  msg ++ 128 :: List.replicate padLen 0 ++ leBytes 8 (msg.length * 8)

/-- Split into 64-byte blocks, with a structural fuel bound (there are
never more blocks than bytes). -/
def chunk64Aux : Nat → List Nat → List (List Nat)
  | 0, _ => []
  | _, [] => []
  | fuel + 1, a :: rest => ((a :: rest).take 64) :: chunk64Aux fuel ((a :: rest).drop 64)

/-- Split into 64-byte blocks. -/
def chunk64 (l : List Nat) : List (List Nat) := chunk64Aux l.length l

/-- Lowercase hexadecimal digit. -/
def hexDigitChar (n : Nat) : Char :=
  match n with
  | 0 => '0' | 1 => '1' | 2 => '2' | 3 => '3' | 4 => '4' | 5 => '5'
  | 6 => '6' | 7 => '7' | 8 => '8' | 9 => '9' | 10 => 'a' | 11 => 'b'
  | 12 => 'c' | 13 => 'd' | 14 => 'e' | _ => 'f'

/-- Two-digit lowercase hex of a byte. -/
def byteHex (b : Nat) : String := ⟨[hexDigitChar (b / 16 % 16), hexDigitChar (b % 16)]⟩

/-- Little-endian lowercase hex of a 32-bit word. -/
def wordHexLE (w : Nat) : String :=
  byteHex (w % 256) ++ byteHex (w / 256 % 256) ++
    byteHex (w / 65536 % 256) ++ byteHex (w / 16777216 % 256)

/-- The MD5 hex digest of a byte list: `hashlib.md5(bytes).hexdigest()`. -/
def md5hexdigest (msg : List Nat) : String :=
  let st := (chunk64 (md5pad msg)).foldl md5block
    (1732584193, 4023233417, 2562383102, 271733878)
  wordHexLE st.1 ++ wordHexLE st.2.1 ++ wordHexLE st.2.2.1 ++ wordHexLE st.2.2.2

/-- UTF-8 encoding of one character (Python `str.encode("utf-8")`). -/
def utf8EncodeCharBytes (c : Char) : List Nat :=
  let n := c.toNat
  if n < 128 then [n]
  else if n < 2048 then [192 + n / 64, 128 + n % 64]
  else if n < 65536 then [224 + n / 4096, 128 + n / 64 % 64, 128 + n % 64]
  else [240 + n / 262144, 128 + n / 4096 % 64, 128 + n / 64 % 64, 128 + n % 64]

/-- UTF-8 bytes of a string: `s.encode("utf-8")`. -/
def utf8Bytes (s : String) : List Nat := s.data.flatMap utf8EncodeCharBytes

/-- Byte values of an ASCII string: `s.encode("ascii")`.  (On the hex-digest
strings this program feeds it, every code point is below 128 and this agrees
with Python; on non-ASCII input Python would raise instead.) -/
def asciiBytes (s : String) : List Nat := s.data.map Char.toNat

/-! ## JSON values

The JSON payloads of the six endpoints, modelled with integer numbers
(the program never creates non-integral numbers itself; its own persisted
records only hold strings).  Objects are ordered association lists; lists
produced by `json.loads` have pairwise-distinct keys, which the theorems
assume where it matters. -/

/-- A JSON value as handled by `json.loads` / `json.dumps`. -/
inductive PyJson where
  | null
  | bool (b : Bool)
  | num (n : Int)
  | str (s : String)
  | arr (items : List PyJson)
  | obj (fields : List (String × PyJson))

/-! ## `strip_took_field` -/

mutual

/-- Model of `strip_took_field`: recursively remove any `'took'` fields from
dictionaries, descending through dictionaries and lists. -/
def strip_took_field : PyJson → PyJson
  | .null => .null
  | .bool b => .bool b
  | .num n => .num n
  | .str s => .str s
  | .arr items => .arr (stripTookList items)
  | .obj fields => .obj (stripTookFields fields)

/-- `strip_took_field` mapped over the items of a JSON list. -/
def stripTookList : List PyJson → List PyJson
  | [] => []
  | j :: rest => strip_took_field j :: stripTookList rest

/-- The dict comprehension of `strip_took_field`: keep the non-`'took'`
entries, in order, stripping each value. -/
def stripTookFields : List (String × PyJson) → List (String × PyJson)
  | [] => []
  | (k, v) :: rest =>
    if k = "took" then stripTookFields rest
    else (k, strip_took_field v) :: stripTookFields rest

end

/-! ## `json.dumps(payload, sort_keys=True, separators=(",", ":"))` -/

/-- Escape of one character inside a JSON string literal, as `json.dumps`
with its default `ensure_ascii=True` produces it: printable ASCII other
than the quote and the backslash is literal, a few controls have two-glyph
escapes, and everything else becomes `\uXXXX` (a surrogate pair beyond the
basic multilingual plane). -/
def jsonEscapeChar (c : Char) : List Char :=
  if c = '"' then ['\\', '"']
  else if c = '\\' then ['\\', '\\']
  else if c = '\x08' then ['\\', 'b']
  else if c = '\t' then ['\\', 't']
  else if c = '\n' then ['\\', 'n']
  else if c = '\x0c' then ['\\', 'f']
  else if c = '\r' then ['\\', 'r']
  else if c.toNat < 32 || c.toNat > 126 then
    if c.toNat < 65536 then
      ['\\', 'u', hexDigitChar (c.toNat / 4096 % 16), hexDigitChar (c.toNat / 256 % 16),
       hexDigitChar (c.toNat / 16 % 16), hexDigitChar (c.toNat % 16)]
    else
      let m := c.toNat - 65536
      let hi := 55296 + m / 1024
      let lo := 56320 + m % 1024
      ['\\', 'u', hexDigitChar (hi / 4096 % 16), hexDigitChar (hi / 256 % 16),
       hexDigitChar (hi / 16 % 16), hexDigitChar (hi % 16),
       '\\', 'u', hexDigitChar (lo / 4096 % 16), hexDigitChar (lo / 256 % 16),
       hexDigitChar (lo / 16 % 16), hexDigitChar (lo % 16)]
  else [c]

/-- A JSON string literal with quotes. -/
def quoteJsonString (s : String) : String :=
  ⟨'"' :: s.data.flatMap jsonEscapeChar ++ ['"']⟩

/-- Key order used by `sort_keys=True`: compare the raw keys. -/
def keyLe (p q : String × String) : Prop := p.1 ≤ q.1

instance : DecidableRel keyLe := fun p q => inferInstanceAs (Decidable (p.1 ≤ q.1))

instance : IsTotal (String × String) keyLe := ⟨fun p q => le_total p.1 q.1⟩

instance : IsTrans (String × String) keyLe := ⟨fun _ _ _ h h' => le_trans h h'⟩

/-- Sort rendered object entries by key, the effect of `sort_keys=True`. -/
def sortPairs (l : List (String × String)) : List (String × String) :=
  List.insertionSort keyLe l

/-- Render one sorted object entry, `"key":value`. -/
def renderPair (p : String × String) : String := quoteJsonString p.1 ++ ":" ++ p.2

mutual

/-- Model of `json.dumps(payload, sort_keys=True, separators=(",", ":"))`:
canonical compact serialization with keys sorted by code point. -/
def pyJsonDumps : PyJson → String
  | .null => "null"
  | .bool true => "true"
  | .bool false => "false"
  | .num n => intToDecString n
  | .str s => quoteJsonString s
  | .arr items => "[" ++ String.intercalate "," (dumpsList items) ++ "]"
  | .obj fields =>
    "\x7b" ++ String.intercalate "," ((sortPairs (dumpsFields fields)).map renderPair)
      ++ "\x7d"

/-- Serialize the items of a JSON list, in order. -/
def dumpsList : List PyJson → List String
  | [] => []
  | j :: rest => pyJsonDumps j :: dumpsList rest

/-- Serialize the values of an object's entries, keeping keys and order. -/
def dumpsFields : List (String × PyJson) → List (String × String)
  | [] => []
  | (k, v) :: rest => (k, pyJsonDumps v) :: dumpsFields rest

end

/-! ## `digest_payload` and `combine_hashes` -/

/-- Model of `digest_payload`: the MD5 hex digest of the canonical
serialization of the payload. -/
def digest_payload (payload : PyJson) : String :=
  md5hexdigest (utf8Bytes (pyJsonDumps payload))

/-- Model of `combine_hashes`: MD5 of the concatenation of the individual
hex digests. -/
def combine_hashes (hashes : List String) : String :=
  md5hexdigest (asciiBytes (String.join hashes))

/-! ## Hash persistence: `read_previous_hash` and `write_hash`

The hash file is modelled by its content: `none` when the file does not
exist (`FileNotFoundError`), `some text` otherwise. -/

/-- Model of `read_previous_hash`: the stored text stripped of surrounding
whitespace, or `none` when the file is missing. -/
def read_previous_hash (file : Option String) : Option String :=
  file.map pyStrip

/-- Model of `write_hash`: the text written to the hash file,
the value followed by exactly one newline.  (The `mkdir` of the parent
directory has no observable effect on the file content.) -/
def write_hash (value : String) : String := value ++ "\n"

/-! ## Credential cache: `load_cached_sid` and `cache_sid` -/

/-- Content of the SID cache file as `load_cached_sid` distinguishes it:
missing (`FileNotFoundError`), present but not JSON (`json.JSONDecodeError`),
or a parsed JSON value. -/
inductive CacheFileState where
  | missing
  | invalidJson
  | json (payload : PyJson)

/-- A Python exception that escapes a function (is not caught inside it). -/
inductive PyErr where
  | attributeError
deriving DecidableEq

/-- Python `dict.get` on an object's entries. -/
def lookupField : List (String × PyJson) → String → Option PyJson
  | [], _ => none
  | (k, v) :: rest, key => if k = key then some v else lookupField rest key

/-- Python `float(value)` on a JSON value, restricted to the integral values
this program writes: numbers and integral decimal strings convert, booleans
convert (`float(True) = 1.0`), everything else raises `TypeError`, which the
source catches.  Returns `none` for raise. -/
def pyFloatValue : Option PyJson → Option Int
  | some (.num n) => some n
  | some (.str s) => parsePyNumber s
  | some (.bool b) => some (if b then 1 else 0)
  | _ => none

/-- Model of `load_cached_sid` at current time `now`: a missing or
unparseable file is a cache miss; on a parsed JSON object the `sid` must be
a non-empty string and `expires` must convert via `float` and lie strictly
in the future.  A parsed JSON value that is not an object makes
`payload.get("sid")` raise `AttributeError`, which no handler in the
function catches. -/
def load_cached_sid (file : CacheFileState) (now : Int) :
    Except PyErr (Option String) :=
  match file with
  | .missing => .ok none
  | .invalidJson => .ok none
  | .json (.obj fields) =>
    match lookupField fields "sid" with
    | some (.str sid) =>
      if sid = "" then .ok none
      else
        match pyFloatValue (lookupField fields "expires") with
        | none => .ok none
        | some expires => if expires ≤ now then .ok none else .ok (some sid)
    | _ => .ok none
  | .json _ => .error .attributeError

/-- Model of `cache_sid` at current time `now`: the fields of the JSON
object written to the cache file.  `expires` is stored as the decimal
string `f"{now + max(validity - 5, 0):.0f}"`. -/
def cache_sid (now : Int) (sid : String) (validity : Int) :
    List (String × PyJson) :=
  [("sid", .str sid), ("expires", .str (intToDecString (now + max (validity - 5) 0)))]

/-! ## The pipeline: `run_hash_check` -/

/-- The fixed, ordered list of resource endpoints. -/
def DEFAULT_ENDPOINTS : List String :=
  ["/api/config", "/api/dhcp/leases", "/api/groups", "/api/lists",
   "/api/domains", "/api/clients"]

/-- First-run exit code, `PIHOLE_HASH_FIRST_RUN_EXIT`. -/
def PIHOLE_HASH_FIRST_RUN_EXIT : Nat := 1

/-- The dataclass `HashCheckResult`. -/
structure HashCheckResult where
  status : Nat
  summary_hash : Option String
  previous_hash : Option String
  message : String
  error : Bool := false
deriving DecidableEq

/-- The environment of one `run_hash_check` invocation: the two state
files, the clock, and the remote API.  `login` models the `login` helper:
either the `(sid, validity)` of a successful authentication or the message
of the `ApiError` it raises (connection error, non-2xx status, or a
malformed body, all raised by `login`/`parse_login_response`).  `fetch`
models the HTTP GET of one endpoint: the parsed JSON body, or the message
of the `ApiError` that `fetch_endpoint` raises. -/
structure Env where
  sidCache : CacheFileState
  now : Int
  login : Except String (String × Int)
  fetch : String → Except String PyJson
  hashFile : Option String

/-- Model of `fetch_endpoint`: fetch and parse, then strip `took` fields. -/
def fetch_endpoint (fetch : String → Except String PyJson) (endpoint : String) :
    Except String PyJson :=
  (fetch endpoint).map strip_took_field

/-- Evaluate the list comprehension over the endpoints: the first raised
`ApiError` aborts, otherwise all normalized payloads are collected in
order. -/
def collectResults : List (Except String PyJson) → Except String (List PyJson)
  | [] => .ok []
  | .error e :: _ => .error e
  | .ok j :: rest =>
    match collectResults rest with
    | .error e => .error e
    | .ok js => .ok (j :: js)

/-- Everything observable of one `run_hash_check` invocation: the returned
result and the final contents of the two state files. -/
structure RunOutcome where
  result : HashCheckResult
  hashFile : Option String
  sidCache : CacheFileState

/-- The `HashCheckResult` built in the `except ApiError` handler. -/
def apiErrorResult (msg : String) : HashCheckResult :=
  ⟨3, none, none, msg, true⟩

/-- Python truthiness of the loaded optional SID (`if cached_sid:`). -/
def truthy : Option String → Bool
  | none => false
  | some s => s != ""

/-- The fetch-digest-compare-persist tail of `run_hash_check`, entered once
a session header is present: fetch and normalize the six endpoints, digest
each payload and combine the digests; on any `ApiError` return the status-3
result leaving the hash file untouched; otherwise read the previous hash,
unconditionally overwrite the hash file with the new summary hash, and
compare. -/
def hashPhase (env : Env) (sidCacheAfter : CacheFileState) : RunOutcome :=
  match collectResults (DEFAULT_ENDPOINTS.map (fetch_endpoint env.fetch)) with
  | .error e => ⟨apiErrorResult e, env.hashFile, sidCacheAfter⟩
  | .ok payloads =>
    let summary_hash := combine_hashes (payloads.map digest_payload)
    let previous_hash := read_previous_hash env.hashFile
    let newHashFile := some (write_hash summary_hash)
    match previous_hash with
    | none =>
      ⟨⟨PIHOLE_HASH_FIRST_RUN_EXIT, some summary_hash, none,
        "No previous hash found; stored current summary hash.", false⟩,
       newHashFile, sidCacheAfter⟩
    | some p =>
      if summary_hash = p then
        ⟨⟨0, some summary_hash, some p, "Pi-hole configuration unchanged.", false⟩,
         newHashFile, sidCacheAfter⟩
      else
        ⟨⟨1, some summary_hash, some p, "Pi-hole configuration has changed.", false⟩,
         newHashFile, sidCacheAfter⟩

/-- The credential step of `run_hash_check`: a truthy cached SID is used
as-is; otherwise `login` either raises (`ApiError` message) or yields a
fresh SID which is persisted to the SID cache with `cache_sid`. -/
def sidStep (env : Env) (cachedSid : Option String) :
    Except String (Option String × CacheFileState) :=
  if truthy cachedSid then .ok (cachedSid, env.sidCache)
  else
    match env.login with
    | .error e => .error e
    | .ok (sid, validity) =>
      .ok (some sid, .json (.obj (cache_sid env.now sid validity)))

/-- The remainder of `run_hash_check` after the credential step: an
`ApiError` from `login` becomes the status-3 result; a missing session
header would too (`raise ApiError("Missing session identifier ...")`);
otherwise the fetch-digest-compare-persist phase runs. -/
def afterSid (env : Env)
    (step : Except String (Option String × CacheFileState)) :
    Except PyErr RunOutcome :=
  match step with
  | .error e => .ok ⟨apiErrorResult e, env.hashFile, env.sidCache⟩
  | .ok (headerSid, sidCacheAfter) =>
    if headerSid = none then
      .ok ⟨apiErrorResult "Missing session identifier for API requests",
           env.hashFile, sidCacheAfter⟩
    else
      .ok (hashPhase env sidCacheAfter)

/-- Model of `run_hash_check`: load the cached SID (an `AttributeError`
from there escapes the function, since only `ApiError` is handled), then
run the credential step and the hash phase. -/
def run_hash_check (env : Env) : Except PyErr RunOutcome :=
  match load_cached_sid env.sidCache env.now with
  | .error e => .error e
  | .ok cachedSid => afterSid env (sidStep env cachedSid)

/-- The summary hash of an invocation whose six fetches all succeed. -/
def summaryOf (env : Env) : String :=
  combine_hashes
    (((DEFAULT_ENDPOINTS.map (fetch_endpoint env.fetch)).filterMap Except.toOption).map
      digest_payload)

/-! ## The orchestrator: `Monitor._sync_configs` -/

/-- An observable action of the orchestrator callback: a log line or the
launch of the configured follow-up command. -/
inductive MonAction where
  | logInfo (msg : String)
  | runCommand (cmd : String)
deriving DecidableEq

/-- Model of `Monitor._run_onchange_command`: log and skip without a
configured command, otherwise log and launch it. -/
def run_onchange_command (onchangeCmd : Option String) : List MonAction :=
  match onchangeCmd with
  | none => [.logInfo "No ONCHANGE_CMD configured; skipping."]
  | some c => [.logInfo ("Executing: " ++ c), .runCommand c]

/-- Model of `Monitor._sync_configs` given the `HashCheckResult` of the
hash check: the ordered observable actions.  Status `1` runs the follow-up
command; status `0` and every other status only log. -/
def sync_configs (result : HashCheckResult) (onchangeCmd : Option String) :
    List MonAction :=
  [MonAction.logInfo "Debounced change detected; running hash check."] ++
  (match result.summary_hash with
   | some h => if h = "" then [] else [MonAction.logInfo ("Current config hash: " ++ h)]
   | none => []) ++
  (if result.status = 1 then
    MonAction.logInfo "Configuration change detected." :: run_onchange_command onchangeCmd
   else if result.status = 0 then
    [MonAction.logInfo "Configuration unchanged. Skipping sync."]
   else
    [MonAction.logInfo ("Hash check returned " ++ natToString result.status ++
      "; skipping sync.")])

/-! ## The snapshot filter: `ChangeHandler._has_real_change` -/

/-- The in-memory snapshot map `path -> (st_mtime_ns, st_size)`. -/
def Snapshots : Type := String → Option (Int × Int)

/-- `dict.pop(path, None)`. -/
def popSnapshot (snaps : Snapshots) (path : String) : Snapshots :=
  fun p => if p = path then none else snaps p

/-- `self._snapshots[path] = current`. -/
def setSnapshot (snaps : Snapshots) (path : String) (v : Int × Int) : Snapshots :=
  fun p => if p = path then some v else snaps p

/-- Model of `ChangeHandler._has_real_change`.  `statResult` is the outcome
of `os.stat(path)`: `none` when it raises `FileNotFoundError`, otherwise
the current `(st_mtime_ns, st_size)` (other `OSError`s would propagate and
are outside this model).  Returns the boolean result and the updated
snapshot map. -/
def has_real_change (snaps : Snapshots) (path : String)
    (statResult : Option (Int × Int)) : Bool × Snapshots :=
  match statResult with
  | none => (true, popSnapshot snaps path)
  | some current =>
    if snaps path = some current then (false, snaps)
    else (true, setSnapshot snaps path current)

/-! ## Equivalence of JSON payloads up to key order and `took` fields

Two payloads are related when they differ only in the order of dictionary
entries and in the presence or absence of fields literally named `"took"`,
at any nesting depth.  Dictionaries carry the no-duplicate-keys property
that every value produced by `json.loads` has. -/

/-- The non-`took` entries of an object, in order. -/
def removeTook (fields : List (String × PyJson)) : List (String × PyJson) :=
  fields.filter (fun p => p.1 ≠ "took")

mutual

/-- Payloads differing only in dictionary key order or in the
presence/absence of `"took"` fields, at any nesting depth. -/
inductive JEquiv : PyJson → PyJson → Prop where
  | null : JEquiv .null .null
  | bool (b : Bool) : JEquiv (.bool b) (.bool b)
  | num (n : Int) : JEquiv (.num n) (.num n)
  | str (s : String) : JEquiv (.str s) (.str s)
  | arr {xs ys : List PyJson} : JEquivList xs ys → JEquiv (.arr xs) (.arr ys)
  | obj {fs gs : List (String × PyJson)} (gsMid : List (String × PyJson)) :
      (fs.map Prod.fst).Nodup → (gs.map Prod.fst).Nodup →
      (removeTook gs).Perm gsMid → JEquivFields (removeTook fs) gsMid →
      JEquiv (.obj fs) (.obj gs)

/-- Pointwise `JEquiv` on JSON lists. -/
inductive JEquivList : List PyJson → List PyJson → Prop where
  | nil : JEquivList [] []
  | cons {x y : PyJson} {xs ys : List PyJson} :
      JEquiv x y → JEquivList xs ys → JEquivList (x :: xs) (y :: ys)

/-- Pointwise equivalence of object entries: equal keys, `JEquiv` values. -/
inductive JEquivFields :
    List (String × PyJson) → List (String × PyJson) → Prop where
  | nil : JEquivFields [] []
  | cons (k : String) {v w : PyJson} {fs gs : List (String × PyJson)} :
      JEquiv v w → JEquivFields fs gs →
      JEquivFields ((k, v) :: fs) ((k, w) :: gs)

end

/-! ## Sorting lemmas: key-sorted renderings of key-distinct permutations
agree -/

/-- Strict key order on rendered object entries. -/
def keyLt (p q : String × String) : Prop := p.1 < q.1

instance : IsAntisymm (String × String) keyLt :=
  ⟨fun _ _ h h' => absurd h (lt_asymm h')⟩

/-- Combine two `Pairwise` facts pointwise. -/
theorem pairwise_combine {α : Type} {R S T : α → α → Prop} :
    ∀ {l : List α}, l.Pairwise R → l.Pairwise S →
      (∀ a b, R a b → S a b → T a b) → l.Pairwise T
  | [], _, _, _ => .nil
  | _ :: _, .cons hR hRs, .cons hS hSs, himp =>
    .cons (fun x hx => himp _ _ (hR x hx) (hS x hx))
      (pairwise_combine hRs hSs himp)

/-- A `keyLe`-sorted list with pairwise-distinct keys is strictly sorted. -/
theorem sorted_keyLt_of_sorted_keyLe {l : List (String × String)}
    (hs : List.Sorted keyLe l) (hn : (l.map Prod.fst).Nodup) :
    List.Sorted keyLt l := by
  have hne : l.Pairwise (fun p q : String × String => p.1 ≠ q.1) :=
    (List.pairwise_map).mp hn
  exact pairwise_combine hs hne (fun a b hab hne' => lt_of_le_of_ne hab hne')

/-- Sorting by key is invariant under permutation when the keys are
pairwise distinct: the heart of `sort_keys=True` determinism. -/
theorem sortPairs_eq_of_perm {l1 l2 : List (String × String)}
    (hp : l1.Perm l2) (hn : (l1.map Prod.fst).Nodup) :
    sortPairs l1 = sortPairs l2 := by
  have h1 : (sortPairs l1).Perm l1 := List.perm_insertionSort keyLe l1
  have h2 : (sortPairs l2).Perm l2 := List.perm_insertionSort keyLe l2
  have hs1 : List.Sorted keyLe (sortPairs l1) := List.sorted_insertionSort keyLe l1
  have hs2 : List.Sorted keyLe (sortPairs l2) := List.sorted_insertionSort keyLe l2
  have hmid : (sortPairs l1).Perm (sortPairs l2) := h1.trans (hp.trans h2.symm)
  have hn1 : ((sortPairs l1).map Prod.fst).Nodup :=
    ((h1.map Prod.fst).nodup_iff).mpr hn
  have hn2 : ((sortPairs l2).map Prod.fst).Nodup :=
    ((hmid.map Prod.fst).nodup_iff).mp hn1
  exact List.eq_of_perm_of_sorted (r := keyLt) hmid
    (sorted_keyLt_of_sorted_keyLe hs1 hn1)
    (sorted_keyLt_of_sorted_keyLe hs2 hn2)

/-! ## Structural lemmas about `strip_took_field` and the serializer -/

/-- `stripTookFields` is filter-then-map. -/
theorem stripTookFields_eq (fs : List (String × PyJson)) :
    stripTookFields fs =
      (removeTook fs).map (fun p => (p.1, strip_took_field p.2)) := by
  induction fs with
  | nil => rfl
  | cons p t ih =>
    rcases p with ⟨k, v⟩
    by_cases hk : k = "took" <;>
      simp [stripTookFields, removeTook, List.filter_cons, hk, ih]

/-- `dumpsFields` keeps keys and serializes values. -/
theorem dumpsFields_eq (fs : List (String × PyJson)) :
    dumpsFields fs = fs.map (fun p => (p.1, pyJsonDumps p.2)) := by
  induction fs with
  | nil => rfl
  | cons p t ih => rcases p with ⟨k, v⟩; simp [dumpsFields, ih]

/-- `dumpsList` is `map`. -/
theorem dumpsList_eq (xs : List PyJson) : dumpsList xs = xs.map pyJsonDumps := by
  induction xs with
  | nil => rfl
  | cons x t ih => simp [dumpsList, ih]

/-- Keys of a filtered entry list stay pairwise distinct. -/
theorem removeTook_keys_nodup {fs : List (String × PyJson)}
    (h : (fs.map Prod.fst).Nodup) : ((removeTook fs).map Prod.fst).Nodup :=
  ((fs.filter_sublist).map Prod.fst).nodup h


/-- List version of the serialization invariance, given the inductive
hypothesis for elements up to size `n`. -/
theorem jequivList_dumps_strip_of {n : Nat}
    (ih : ∀ {a b : PyJson}, sizeOf a ≤ n → JEquiv a b →
      pyJsonDumps (strip_took_field a) = pyJsonDumps (strip_took_field b)) :
    ∀ {xs ys : List PyJson}, (∀ x ∈ xs, sizeOf x ≤ n) → JEquivList xs ys →
      dumpsList (stripTookList xs) = dumpsList (stripTookList ys) := by
  intro xs
  induction xs with
  | nil => intro ys _ h; cases h; rfl
  | cons x t iht =>
    intro ys hsz h
    cases h with
    | cons hv ht =>
      simp only [stripTookList, dumpsList]
      rw [ih (hsz x (by simp)) hv,
        iht (fun y hy => hsz y (List.mem_cons_of_mem x hy)) ht]

/-- Entry-list version of the serialization invariance, given the inductive
hypothesis for values up to size `n`. -/
theorem jequivFields_dumps_strip_of {n : Nat}
    (ih : ∀ {a b : PyJson}, sizeOf a ≤ n → JEquiv a b →
      pyJsonDumps (strip_took_field a) = pyJsonDumps (strip_took_field b)) :
    ∀ {fs gs : List (String × PyJson)}, (∀ p ∈ fs, sizeOf p.2 ≤ n) →
      JEquivFields fs gs →
      fs.map (fun p => (p.1, pyJsonDumps (strip_took_field p.2))) =
      gs.map (fun p => (p.1, pyJsonDumps (strip_took_field p.2))) := by
  intro fs
  induction fs with
  | nil => intro gs _ h; cases h; rfl
  | cons p t iht =>
    intro gs hsz h
    cases h with
    | cons k hv ht =>
      rename_i v w gs
      have h1 : sizeOf v ≤ n := hsz (k, v) (List.mem_cons_self _ _)
      simp only [List.map_cons]
      rw [ih h1 hv,
        iht (fun q hq => hsz q (List.mem_cons_of_mem _ hq)) ht]

/-- Serialization after `took`-stripping is invariant under `JEquiv`,
by strong induction on the size of the payload. -/
theorem jequiv_dumps_strip_bounded :
    ∀ n : Nat, ∀ {a b : PyJson}, sizeOf a ≤ n → JEquiv a b →
      pyJsonDumps (strip_took_field a) = pyJsonDumps (strip_took_field b) := by
  intro n
  induction n with
  | zero =>
    intro a b hle _
    exact absurd hle (by cases a <;> simp)
  | succ n ih =>
    intro a b hle h
    cases h with
    | null => rfl
    | bool _ => rfl
    | num _ => rfl
    | str _ => rfl
    | arr hl =>
      rename_i xs ys
      have hsz : ∀ x ∈ xs, sizeOf x ≤ n := by
        intro x hx
        have h1 := List.sizeOf_lt_of_mem hx
        have h2 : sizeOf (PyJson.arr xs) = 1 + sizeOf xs := by simp
        omega
      have hL := jequivList_dumps_strip_of (fun hs hj => ih hs hj) hsz hl
      simp only [strip_took_field, pyJsonDumps]
      rw [hL]
    | obj gsMid hfn hgn hperm hflds =>
      rename_i fs gs
      have hsz : ∀ p ∈ removeTook fs, sizeOf p.2 ≤ n := by
        intro p hp
        have hmem : p ∈ fs := List.mem_of_mem_filter hp
        have h1 := List.sizeOf_lt_of_mem hmem
        have h2 : sizeOf (PyJson.obj fs) = 1 + sizeOf fs := by simp
        rcases p with ⟨k, v⟩
        have h3 : sizeOf ((k, v) : String × PyJson) = 1 + sizeOf k + sizeOf v := by
          simp
        simp only at h1 h3 ⊢
        omega
      have hF := jequivFields_dumps_strip_of (fun hs hj => ih hs hj) hsz hflds
      have e1 : dumpsFields (stripTookFields fs) =
          (removeTook fs).map (fun p => (p.1, pyJsonDumps (strip_took_field p.2))) := by
        rw [stripTookFields_eq, dumpsFields_eq, List.map_map]
        rfl
      have e2 : dumpsFields (stripTookFields gs) =
          (removeTook gs).map (fun p => (p.1, pyJsonDumps (strip_took_field p.2))) := by
        rw [stripTookFields_eq, dumpsFields_eq, List.map_map]
        rfl
      have hpm : (dumpsFields (stripTookFields fs)).Perm
          (dumpsFields (stripTookFields gs)) := by
        rw [e1, e2, hF]
        exact (hperm.map _).symm
      have hnd : ((dumpsFields (stripTookFields fs)).map Prod.fst).Nodup := by
        rw [e1, List.map_map]
        exact removeTook_keys_nodup hfn
      have hsort : sortPairs (dumpsFields (stripTookFields fs)) =
          sortPairs (dumpsFields (stripTookFields gs)) :=
        sortPairs_eq_of_perm hpm hnd
      simp only [strip_took_field, pyJsonDumps]
      rw [hsort]

/-- Serialization after `took`-stripping is invariant under `JEquiv`. -/
theorem jequiv_dumps_strip {a b : PyJson} (h : JEquiv a b) :
    pyJsonDumps (strip_took_field a) = pyJsonDumps (strip_took_field b) :=
  jequiv_dumps_strip_bounded (sizeOf a) le_rfl h

/-! ## Claim C4 -/

/-- C4: for every pair of JSON values that differ only in dictionary key
order or in the presence/absence of fields literally named `"took"` (at any
nesting depth inside dictionaries and lists), `digest_payload` applied
after `strip_took_field` produces identical hex digests. -/
theorem digest_invariant_under_took_and_key_order {a b : PyJson}
    (h : JEquiv a b) :
    digest_payload (strip_took_field a) = digest_payload (strip_took_field b) := by
  unfold digest_payload
  rw [jequiv_dumps_strip h]

/-- C4 witness: two concrete payloads differing in key order and in a
`took` field hash identically. -/
theorem digest_invariant_under_took_and_key_order_witness :
    JEquiv (.obj [("b", .num 1), ("a", .null), ("took", .num 9)])
        (.obj [("a", .null), ("b", .num 1)]) ∧
    digest_payload
        (strip_took_field (.obj [("b", .num 1), ("a", .null), ("took", .num 9)])) =
      digest_payload (strip_took_field (.obj [("a", .null), ("b", .num 1)])) := by
  have h : JEquiv (.obj [("b", .num 1), ("a", .null), ("took", .num 9)])
      (.obj [("a", .null), ("b", .num 1)]) := by
    refine JEquiv.obj [("b", PyJson.num 1), ("a", PyJson.null)] ?_ ?_ ?_ ?_
    · decide
    · decide
    · exact List.Perm.swap _ _ _
    · exact JEquivFields.cons "b" (JEquiv.num 1)
        (JEquivFields.cons "a" JEquiv.null JEquivFields.nil)
  exact ⟨h, digest_invariant_under_took_and_key_order h⟩

/-! ## Claim C5 -/

/-- Character data of an appended string. -/
theorem string_data_append (a b : String) : (a ++ b).data = a.data ++ b.data := by
  cases a
  cases b
  rfl

/-- Concatenated character data of a list of strings. -/
def concatData : List String → List Char
  | [] => []
  | s :: rest => s.data ++ concatData rest

/-- Folding append from any seed accumulates the concatenated data. -/
theorem foldl_append_data :
    ∀ (l : List String) (s : String),
      (l.foldl (· ++ ·) s).data = s.data ++ concatData l
  | [], s => by simp [concatData]
  | x :: t, s => by
    simp only [List.foldl_cons, concatData]
    rw [foldl_append_data t (s ++ x), string_data_append]
    simp [List.append_assoc]

/-- `String.join` concatenates the character data. -/
theorem string_join_data (l : List String) :
    (String.join l).data = concatData l := by
  show (l.foldl (· ++ ·) "").data = concatData l
  rw [foldl_append_data]
  rfl

/-- `concatData` distributes over list append. -/
theorem concatData_append :
    ∀ l1 l2 : List String, concatData (l1 ++ l2) = concatData l1 ++ concatData l2
  | [], l2 => rfl
  | x :: t, l2 => by
    show x.data ++ concatData (t ++ l2) = x.data ++ concatData t ++ concatData l2
    rw [concatData_append t l2, List.append_assoc]

/-- C5 counterexample: `combine_hashes` maps a list of two distinct digest
strings and its swap to the same combined hash, because both concatenate to
`"aaa"`.  The claim that swapping two distinct digests always changes the
combined hash is therefore false for arbitrary digest strings. -/
theorem combine_hashes_swap_counterexample :
    combine_hashes ["a", "aa"] = combine_hashes ["aa", "a"] ∧
      ("a" : String) ≠ "aa" :=
  ⟨rfl, by decide⟩

/-- C5 amended: `combine_hashes` is a deterministic function of its ordered
input list, and for equal-length digests (every digest `digest_payload`
produces has 32 characters) swapping two distinct digests changes the
concatenated string whose MD5 is the combined hash. -/
theorem combine_hashes_det_and_order :
    (∀ l1 l2 : List String, l1 = l2 → combine_hashes l1 = combine_hashes l2) ∧
    (∀ (pre mid post : List String) (x y : String),
      x.length = y.length → x ≠ y →
      String.join (pre ++ x :: mid ++ y :: post) ≠
        String.join (pre ++ y :: mid ++ x :: post)) := by
  constructor
  · intro l1 l2 h
    rw [h]
  · intro pre mid post x y hlen hne heq
    apply hne
    have hd := congrArg String.data heq
    rw [string_join_data, string_join_data] at hd
    simp only [concatData_append, concatData, List.append_assoc] at hd
    have hd2 := List.append_cancel_left hd
    have hlen' : x.data.length = y.data.length := hlen
    exact congrArg String.mk (List.append_inj hd2 hlen').1

/-- C5 witness for the amended statement: determinism at a concrete list,
and a concrete equal-length swap that changes the hashed concatenation. -/
theorem combine_hashes_det_and_order_witness :
    combine_hashes ["ab"] = combine_hashes ["ab"] ∧
      String.join (([] : List String) ++ "ab" :: [] ++ "cd" :: []) ≠
        String.join (([] : List String) ++ "cd" :: [] ++ "ab" :: []) :=
  ⟨combine_hashes_det_and_order.1 ["ab"] ["ab"] rfl,
   combine_hashes_det_and_order.2 [] [] [] "ab" "cd" rfl (by decide)⟩

/-! ## Claim C10 -/

/-- Dropping leading whitespace is the identity when the first character is
not whitespace. -/
theorem lstripL_noop {l : List Char}
    (h : ∀ c, l.head? = some c → isPySpace c = false) : lstripL l = l := by
  cases l with
  | nil => rfl
  | cons c t => simp [lstripL, List.dropWhile_cons, h c rfl]

/-- Dropping trailing whitespace is the identity when the last character is
not whitespace. -/
theorem rstripL_noop {l : List Char}
    (h : ∀ c, l.getLast? = some c → isPySpace c = false) : rstripL l = l := by
  unfold rstripL
  rw [show l.reverse.dropWhile isPySpace = l.reverse from
    lstripL_noop (fun c hc => h c (by rwa [List.head?_reverse] at hc))]
  exact l.reverse_reverse

/-- `pyStrip` is the identity on a string whose first and last characters
are not whitespace. -/
theorem pyStrip_noop {s : String}
    (h1 : ∀ c, s.data.head? = some c → isPySpace c = false)
    (h2 : ∀ c, s.data.getLast? = some c → isPySpace c = false) :
    pyStrip s = s := by
  cases s with
  | mk l =>
    show String.mk (rstripL (lstripL l)) = String.mk l
    rw [lstripL_noop h1, rstripL_noop h2]

/-- Dropping a prefix never lengthens a list. -/
theorem dropWhile_length_le (p : Char → Bool) :
    ∀ l : List Char, (l.dropWhile p).length ≤ l.length
  | [] => le_rfl
  | c :: t => by
    rw [List.dropWhile_cons]
    by_cases h : p c = true
    · simp only [h, if_true]
      have := dropWhile_length_le p t
      simp only [List.length_cons]
      omega
    · simp [h]

/-- `rstripL` never lengthens a list. -/
theorem rstripL_length_le (l : List Char) : (rstripL l).length ≤ l.length := by
  unfold rstripL
  rw [List.length_reverse]
  calc (l.reverse.dropWhile isPySpace).length ≤ l.reverse.length :=
        dropWhile_length_le isPySpace l.reverse
    _ = l.length := l.length_reverse

/-- A string equal to its own strip does not start with whitespace. -/
theorem pyStrip_eq_head_cond {s : String} (hs : pyStrip s = s) :
    ∀ c, s.data.head? = some c → isPySpace c = false := by
  intro c hc
  by_contra hsp
  have hsp' : isPySpace c = true := by
    cases hv : isPySpace c
    · exact absurd hv hsp
    · rfl
  cases hd : s.data with
  | nil => rw [hd] at hc; exact absurd hc (by simp)
  | cons d t =>
    rw [hd] at hc
    have hcd : d = c := by
      simp only [List.head?_cons, Option.some.injEq] at hc
      exact hc
    have hdata' : rstripL (lstripL s.data) = s.data := congrArg String.data hs
    rw [hd] at hdata'
    have h1 : lstripL (d :: t) = lstripL t := by
      simp [lstripL, List.dropWhile_cons, hcd, hsp']
    have h2 : (rstripL (lstripL (d :: t))).length ≤ t.length := by
      rw [h1]
      calc (rstripL (lstripL t)).length ≤ (lstripL t).length :=
            rstripL_length_le _
        _ ≤ t.length := dropWhile_length_le isPySpace t
    rw [hdata'] at h2
    simp only [List.length_cons] at h2
    omega

/-- A string equal to its own strip does not end with whitespace. -/
theorem pyStrip_eq_last_cond {s : String} (hs : pyStrip s = s) :
    ∀ c, s.data.getLast? = some c → isPySpace c = false := by
  intro c hc
  by_contra hsp
  have hsp' : isPySpace c = true := by
    cases hv : isPySpace c
    · exact absurd hv hsp
    · rfl
  have hdata : rstripL (lstripL s.data) = s.data := congrArg String.data hs
  have hl2 : (rstripL (lstripL s.data)).length ≤ (lstripL s.data).length :=
    rstripL_length_le _
  have hl1 : (lstripL s.data).length ≤ s.data.length :=
    dropWhile_length_le isPySpace s.data
  have hlen : (lstripL s.data).length = s.data.length := by
    rw [hdata] at hl2
    omega
  have hls : lstripL s.data = s.data :=
    (List.dropWhile_suffix isPySpace).eq_of_length hlen
  have hrs : rstripL s.data = s.data := by
    rw [hls] at hdata
    exact hdata
  obtain ⟨d, r, hrev⟩ : ∃ d r, s.data.reverse = d :: r := by
    cases hr : s.data.reverse with
    | nil =>
      have hnil : s.data = [] := by
        have := congrArg List.reverse hr
        simpa using this
      rw [hnil] at hc
      exact absurd hc (by simp)
    | cons d r => exact ⟨d, r, rfl⟩
  have hdc : d = c := by
    have hgl : s.data.getLast? = some d := by
      rw [← List.head?_reverse, hrev]
      rfl
    rw [hgl] at hc
    exact (Option.some.injEq _ _).mp hc
  have hshort : (rstripL s.data).length ≤ r.length := by
    unfold rstripL
    rw [hrev]
    calc ((d :: r).dropWhile isPySpace).reverse.length
        = ((d :: r).dropWhile isPySpace).length := List.length_reverse _
      _ = (r.dropWhile isPySpace).length := by
          simp [List.dropWhile_cons, hdc, hsp']
      _ ≤ r.length := dropWhile_length_le isPySpace r
  rw [hrs] at hshort
  have hlenrev : s.data.length = r.length + 1 := by
    have := congrArg List.length hrev
    simpa using this
  omega

/-- C10: `write_hash` appends exactly one newline and `read_previous_hash`
strips surrounding whitespace, so for a hash string without leading or
trailing whitespace a write followed by a read returns the string
unchanged. -/
theorem write_hash_read_previous_hash_roundtrip (h : String)
    (hs : pyStrip h = h) :
    read_previous_hash (some (write_hash h)) = some h := by
  have hhead := pyStrip_eq_head_cond hs
  have hlast := pyStrip_eq_last_cond hs
  obtain ⟨l⟩ := h
  show some (pyStrip ((⟨l⟩ : String) ++ "\n")) = some ⟨l⟩
  congr 1
  show String.mk (rstripL (lstripL ((⟨l⟩ : String) ++ "\n").data)) = ⟨l⟩
  have hd : ((⟨l⟩ : String) ++ "\n").data = l ++ ['\n'] :=
    string_data_append ⟨l⟩ "\n"
  rw [hd]
  have key : rstripL (lstripL (l ++ ['\n'])) = l := by
    cases hdat : l with
    | nil => rfl
    | cons c t =>
      have hc : isPySpace c = false := hhead c (by rw [hdat]; rfl)
      have h1 : lstripL ((c :: t) ++ ['\n']) = (c :: t) ++ ['\n'] := by
        apply lstripL_noop
        intro e he
        simp only [List.cons_append, List.head?_cons, Option.some.injEq] at he
        rw [← he]
        exact hc
      rw [h1]
      have hrr : (c :: t).reverse.dropWhile isPySpace = (c :: t).reverse := by
        apply lstripL_noop
        intro e he
        rw [List.head?_reverse] at he
        exact hlast e (by rw [hdat]; exact he)
      unfold rstripL
      rw [List.reverse_append]
      show ((('\n' :: (c :: t).reverse)).dropWhile isPySpace).reverse = c :: t
      have hnl : isPySpace '\n' = true := rfl
      rw [List.dropWhile_cons]
      simp only [hnl, if_true]
      rw [hrr, List.reverse_reverse]
  rw [key]

/-- C10 witness: a concrete whitespace-free hash string round-trips. -/
theorem write_hash_read_previous_hash_roundtrip_witness :
    pyStrip "0badc0de" = "0badc0de" ∧
      read_previous_hash (some (write_hash "0badc0de")) = some "0badc0de" :=
  ⟨rfl, write_hash_read_previous_hash_roundtrip "0badc0de" rfl⟩

/-! ## Claim C8 -/

/-- Decimal digit characters are never whitespace. -/
theorem decDigitChar_not_space (d : Nat) : isPySpace (decDigitChar d) = false := by
  unfold decDigitChar
  split <;> rfl

/-- Decimal digit characters are not the minus sign. -/
theorem decDigitChar_ne_dash (d : Nat) : decDigitChar d ≠ '-' := by
  unfold decDigitChar
  split <;> decide

/-- Decimal digit characters are not the plus sign. -/
theorem decDigitChar_ne_plus (d : Nat) : decDigitChar d ≠ '+' := by
  unfold decDigitChar
  split <;> decide

/-- Parsing inverts printing for a single digit. -/
theorem digitVal_decDigitChar (d : Nat) (hd : d < 10) :
    digitVal (decDigitChar d) = some d := by
  interval_cases d <;> rfl

/-- Unfolding of `natDigitsRev` at a positive number. -/
theorem natDigitsRev_cons {n : Nat} (h : n ≠ 0) :
    natDigitsRev n = decDigitChar (n % 10) :: natDigitsRev (n / 10) := by
  show natDigitsRevAux n n = decDigitChar (n % 10) :: natDigitsRevAux (n / 10) (n / 10)
  cases n with
  | zero => exact absurd rfl h
  | succ m =>
    simp only [natDigitsRevAux, if_neg h]
    have hdiv : (m + 1) / 10 < m + 1 := Nat.div_lt_self (by omega) (by omega)
    rw [natDigitsRevAux_congr m ((m + 1) / 10) ((m + 1) / 10) (by omega) le_rfl]

/-- `natDigitsRev` at zero. -/
theorem natDigitsRev_zero : natDigitsRev 0 = [] := rfl

/-- A positive number has at least one digit. -/
theorem natDigitsRev_ne_nil {n : Nat} (h : n ≠ 0) : natDigitsRev n ≠ [] := by
  rw [natDigitsRev_cons h]
  simp

/-- Every character `natDigitsRev` produces is a decimal digit character. -/
theorem natDigitsRev_mem (n : Nat) :
    ∀ c ∈ natDigitsRev n, ∃ d, d < 10 ∧ c = decDigitChar d := by
  induction n using Nat.strong_induction_on with
  | _ n ih =>
    by_cases h : n = 0
    · subst h
      intro c hc
      rw [natDigitsRev_zero] at hc
      exact absurd hc (by simp)
    · rw [natDigitsRev_cons h]
      intro c hc
      rcases List.mem_cons.mp hc with h1 | h2
      · exact ⟨n % 10, Nat.mod_lt _ (by omega), h1⟩
      · exact ih (n / 10) (Nat.div_lt_self (Nat.pos_of_ne_zero h) (by omega)) c h2

/-- Digit accumulation over an appended list. -/
theorem parseDigitsAux_append :
    ∀ (l1 l2 : List Char) (acc m : Nat), parseDigitsAux acc l1 = some m →
      parseDigitsAux acc (l1 ++ l2) = parseDigitsAux m l2
  | [], l2, acc, m, h => by
    simp only [parseDigitsAux, Option.some.injEq] at h
    rw [List.nil_append, h]
  | c :: cs, l2, acc, m, h => by
    rw [List.cons_append]
    simp only [parseDigitsAux] at h ⊢
    cases hv : digitVal c with
    | none =>
      rw [hv] at h
      exact absurd h (by simp)
    | some d =>
      rw [hv] at h
      exact parseDigitsAux_append cs l2 (acc * 10 + d) m h

/-- Digit accumulation inverts printing, with an arbitrary seed. -/
theorem parseDigitsAux_natDigitsRev (n : Nat) :
    ∀ acc : Nat, parseDigitsAux acc (natDigitsRev n).reverse =
      some (acc * 10 ^ (natDigitsRev n).length + n) := by
  induction n using Nat.strong_induction_on with
  | _ n ih =>
    intro acc
    by_cases h : n = 0
    · subst h
      simp [natDigitsRev_zero, parseDigitsAux]
    · rw [natDigitsRev_cons h, List.reverse_cons]
      have hdiv : n / 10 < n := Nat.div_lt_self (Nat.pos_of_ne_zero h) (by omega)
      rw [parseDigitsAux_append ((natDigitsRev (n / 10)).reverse)
        [decDigitChar (n % 10)] acc _ (ih (n / 10) hdiv acc)]
      have hd10 : n % 10 < 10 := Nat.mod_lt _ (by omega)
      simp only [parseDigitsAux, digitVal_decDigitChar _ hd10]
      congr 1
      rw [List.length_cons, pow_succ]
      have hmod : n / 10 * 10 + n % 10 = n := by
        have := Nat.div_add_mod n 10
        omega
      calc (acc * 10 ^ (natDigitsRev (n / 10)).length + n / 10) * 10 + n % 10
          = acc * (10 ^ (natDigitsRev (n / 10)).length * 10) +
              (n / 10 * 10 + n % 10) := by ring
        _ = acc * (10 ^ (natDigitsRev (n / 10)).length * 10) + n := by rw [hmod]

/-- Parsing inverts decimal printing of a natural number. -/
theorem parseDigits_natToString (n : Nat) :
    parseDigits (natToString n).data = some n := by
  by_cases h : n = 0
  · subst h
    rfl
  · have hdata : (natToString n).data = (natDigitsRev n).reverse := by
      unfold natToString
      rw [if_neg h]
    obtain ⟨c, cs, hc⟩ :=
      List.exists_cons_of_ne_nil (l := (natDigitsRev n).reverse) (by
        intro hnil
        apply natDigitsRev_ne_nil h
        have hrev := congrArg List.reverse hnil
        simpa using hrev)
    rw [hdata, hc]
    show parseDigitsAux 0 (c :: cs) = some n
    rw [← hc, parseDigitsAux_natDigitsRev n 0]
    simp

/-- The head of a list is a member. -/
theorem mem_of_head?_eq {α : Type} {l : List α} {c : α}
    (h : l.head? = some c) : c ∈ l := by
  cases l with
  | nil => exact absurd h (by simp)
  | cons a t =>
    simp only [List.head?_cons, Option.some.injEq] at h
    rw [← h]
    exact List.mem_cons_self _ _

/-- The last element of a list is a member. -/
theorem mem_of_getLast?_eq {α : Type} {l : List α} {c : α}
    (h : l.getLast? = some c) : c ∈ l := by
  rw [← List.head?_reverse] at h
  exact List.mem_reverse.mp (mem_of_head?_eq h)

/-- Decimal renderings of naturals contain no whitespace. -/
theorem natToString_chars (n : Nat) :
    ∀ c ∈ (natToString n).data, isPySpace c = false := by
  intro c hc
  by_cases h : n = 0
  · subst h
    have hm : (natToString 0).data = ['0'] := rfl
    rw [hm] at hc
    have hc0 : c = '0' := by simpa using hc
    rw [hc0]
    rfl
  · have hdata : (natToString n).data = (natDigitsRev n).reverse := by
      unfold natToString
      rw [if_neg h]
    rw [hdata, List.mem_reverse] at hc
    obtain ⟨d, _, hd⟩ := natDigitsRev_mem n c hc
    rw [hd]
    exact decDigitChar_not_space d

/-- Decimal renderings of integers contain no whitespace. -/
theorem intToDecString_chars (i : Int) :
    ∀ c ∈ (intToDecString i).data, isPySpace c = false := by
  intro c hc
  unfold intToDecString at hc
  by_cases h : i < 0
  · rw [if_pos h, string_data_append] at hc
    rcases List.mem_append.mp hc with h1 | h2
    · have hdash : c = '-' := by simpa using h1
      rw [hdash]
      rfl
    · exact natToString_chars _ c h2
  · rw [if_neg h] at hc
    exact natToString_chars _ c hc

/-- Stripping is the identity on decimal renderings. -/
theorem pyStrip_intToDecString (i : Int) :
    pyStrip (intToDecString i) = intToDecString i := by
  apply pyStrip_noop
  · intro c hc
    exact intToDecString_chars i c (mem_of_head?_eq hc)
  · intro c hc
    exact intToDecString_chars i c (mem_of_getLast?_eq hc)

/-- Reduction of `parsePyNumber` on a stripped string of known data. -/
theorem parsePyNumber_eq_of_data {s : String} {c : Char} {rest : List Char}
    (hstrip : pyStrip s = s) (hdata : s.data = c :: rest) :
    parsePyNumber s =
      (if c = '-' then (parseDigits rest).map (fun n => -(n : Int))
       else if c = '+' then (parseDigits rest).map (fun n => (n : Int))
       else (parseDigits (c :: rest)).map (fun n => (n : Int))) := by
  unfold parsePyNumber
  rw [hstrip, hdata]

/-- The decimal rendering of a natural starts with a digit character. -/
theorem natToString_data_shape (n : Nat) :
    ∃ d cs, d < 10 ∧ (natToString n).data = decDigitChar d :: cs := by
  by_cases h : n = 0
  · subst h
    exact ⟨0, [], by omega, rfl⟩
  · have hdata : (natToString n).data = (natDigitsRev n).reverse := by
      unfold natToString
      rw [if_neg h]
    obtain ⟨c, cs, hc⟩ :=
      List.exists_cons_of_ne_nil (l := (natDigitsRev n).reverse) (by
        intro hnil
        apply natDigitsRev_ne_nil h
        have hrev := congrArg List.reverse hnil
        simpa using hrev)
    have hcmem : c ∈ natDigitsRev n := by
      rw [← List.mem_reverse, hc]
      exact List.mem_cons_self _ _
    obtain ⟨d, hd10, hd⟩ := natDigitsRev_mem n c hcmem
    exact ⟨d, cs, hd10, by rw [hdata, hc, hd]⟩

/-- Parsing inverts the decimal rendering of any integer: the arithmetic
heart of the credential-expiry round trip. -/
theorem parsePyNumber_intToDecString (i : Int) :
    parsePyNumber (intToDecString i) = some i := by
  by_cases h : i < 0
  · have hdata : (intToDecString i).data = '-' :: (natToString i.natAbs).data := by
      unfold intToDecString
      rw [if_pos h]
      exact string_data_append "-" _
    rw [parsePyNumber_eq_of_data (pyStrip_intToDecString i) hdata, if_pos rfl,
      parseDigits_natToString]
    show some (-(i.natAbs : Int)) = some i
    congr 1
    omega
  · obtain ⟨d, cs, hd10, hshape⟩ := natToString_data_shape i.toNat
    have hdata : (intToDecString i).data = decDigitChar d :: cs := by
      unfold intToDecString
      rw [if_neg h]
      exact hshape
    rw [parsePyNumber_eq_of_data (pyStrip_intToDecString i) hdata,
      if_neg (decDigitChar_ne_dash d), if_neg (decDigitChar_ne_plus d), ← hshape]
    have hback : (intToDecString i).data = (natToString i.toNat).data := by
      unfold intToDecString
      rw [if_neg h]
    rw [parseDigits_natToString]
    show some ((i.toNat : Int)) = some i
    congr 1
    omega

/-- C8: `cache_sid` persists the given sid together with an expiry equal to
`now + max(validity - 5, 0)`; in particular for `validity <= 5` the stored
expiry equals `now`. -/
theorem cache_sid_expiry_margin (now : Int) (sid : String) (validity : Int) :
    lookupField (cache_sid now sid validity) "sid" = some (.str sid) ∧
    pyFloatValue (lookupField (cache_sid now sid validity) "expires") =
      some (now + max (validity - 5) 0) ∧
    (validity ≤ 5 →
      pyFloatValue (lookupField (cache_sid now sid validity) "expires") =
        some now) := by
  have hmid : pyFloatValue (lookupField (cache_sid now sid validity) "expires") =
      some (now + max (validity - 5) 0) := by
    show parsePyNumber (intToDecString (now + max (validity - 5) 0)) = _
    exact parsePyNumber_intToDecString _
  refine ⟨rfl, hmid, fun hv => ?_⟩
  rw [hmid]
  congr 1
  omega

/-- C8 witness: caching with a validity below the 5-second margin stores an
expiry equal to the current time. -/
theorem cache_sid_expiry_margin_witness :
    (3 : Int) ≤ 5 ∧
      pyFloatValue (lookupField (cache_sid 100 "s" 3) "expires") = some 100 :=
  ⟨by decide, (cache_sid_expiry_margin 100 "s" 3).2.2 (by decide)⟩

/-! ## Claim C7 -/

/-- C7: a cache file holding valid JSON that is not an object (here the
number `5`) makes `load_cached_sid` raise `AttributeError` instead of
returning `none`: `payload.get` is called on a non-dict and no handler in
the function catches the resulting exception. -/
theorem load_cached_sid_nonobject_raises :
    load_cached_sid (.json (.num 5)) 0 = .error .attributeError := rfl

/-! ## Claim C9 -/

/-- C9: the snapshot filter suppresses an event exactly when a stored
snapshot exists for the path and equals the current `(mtime, size)`; a
missing file always counts as a real change and removes the path's entry;
a new or differing stat result counts as a real change and stores the
current pair. -/
theorem has_real_change_cases (snaps : Snapshots) (path : String)
    (statResult : Option (Int × Int)) :
    ((has_real_change snaps path statResult).1 = false ↔
      ∃ current, statResult = some current ∧ snaps path = some current) ∧
    (statResult = none →
      (has_real_change snaps path statResult).1 = true ∧
      (has_real_change snaps path statResult).2 path = none) ∧
    (∀ current, statResult = some current → snaps path = some current →
      has_real_change snaps path statResult = (false, snaps)) ∧
    (∀ current, statResult = some current → snaps path ≠ some current →
      (has_real_change snaps path statResult).1 = true ∧
      (has_real_change snaps path statResult).2 path = some current) := by
  refine ⟨?_, ?_, ?_, ?_⟩
  · cases statResult with
    | none => simp [has_real_change]
    | some cur =>
      by_cases h : snaps path = some cur
      · simp [has_real_change, h]
      · simp only [has_real_change, if_neg h]
        constructor
        · intro hfalse
          exact absurd hfalse (by simp)
        · rintro ⟨c, hc1, hc2⟩
          rw [(Option.some.injEq _ _).mp hc1] at h
          exact absurd hc2 h
  · intro hnone
    subst hnone
    exact ⟨rfl, by simp [has_real_change, popSnapshot]⟩
  · intro cur hstat hsnap
    subst hstat
    simp [has_real_change, hsnap]
  · intro cur hstat hsnap
    subst hstat
    simp [has_real_change, hsnap, setSnapshot]

/-- C9 witness: deleting an unknown path is reported as a real change and
its snapshot entry stays absent. -/
theorem has_real_change_cases_witness :
    (has_real_change (fun _ => none) "/etc/pihole/x" none).1 = true ∧
      (has_real_change (fun _ => none) "/etc/pihole/x" none).2 "/etc/pihole/x" =
        none :=
  (has_real_change_cases (fun _ => none) "/etc/pihole/x" none).2.1 rfl

/-! ## Claim C2 -/

/-- The follow-up command appears among the orchestrator's actions exactly
when the result status is `1` and that command is configured. -/
theorem runCommand_mem_sync_configs (r : HashCheckResult)
    (cmdOpt : Option String) (c : String) :
    MonAction.runCommand c ∈ sync_configs r cmdOpt ↔
      (r.status = 1 ∧ cmdOpt = some c) := by
  unfold sync_configs run_onchange_command
  have hhash : MonAction.runCommand c ∉
      (match r.summary_hash with
       | some h => if h = "" then []
          else [MonAction.logInfo ("Current config hash: " ++ h)]
       | none => ([] : List MonAction)) := by
    rcases r.summary_hash with _ | hsh
    · simp
    · by_cases he : hsh = "" <;> simp [he]
  by_cases h1 : r.status = 1
  · rcases cmdOpt with _ | cmd
    · simp [h1, List.mem_append, hhash]
    · by_cases hc : cmd = c
      · simp [h1, List.mem_append, hhash, hc]
      · have hc' : ¬c = cmd := fun he => hc he.symm
        simp [h1, List.mem_append, hhash, hc, hc']
  · by_cases h0 : r.status = 0
    · simp [h0, h1, List.mem_append, hhash]
    · simp [h0, h1, List.mem_append, hhash]

/-- C2 amended: the orchestrator runs the follow-up command if and only if
the result status equals `1`; with no configured command nothing is run;
for any other status (`0` unchanged, `>= 3` error) it only logs.  Because
the first-run exit code defaults to `1`, a first-run result also triggers
the follow-up. -/
theorem sync_configs_runs_iff_status_one (r : HashCheckResult)
    (cmd : String) (cmdOpt : Option String) :
    (MonAction.runCommand cmd ∈ sync_configs r (some cmd) ↔ r.status = 1) ∧
    (∀ c, MonAction.runCommand c ∉ sync_configs r none) ∧
    (r.status ≠ 1 → ∀ c, MonAction.runCommand c ∉ sync_configs r cmdOpt) := by
  refine ⟨?_, ?_, ?_⟩
  · rw [runCommand_mem_sync_configs]
    simp
  · intro c
    rw [runCommand_mem_sync_configs]
    simp
  · intro hne c
    rw [runCommand_mem_sync_configs]
    simp [hne]

/-- C2 witness: a changed result (status `1`) runs the configured command,
and an error result (status `3`) does not. -/
theorem sync_configs_runs_iff_status_one_witness :
    MonAction.runCommand "sync.sh" ∈
      sync_configs ⟨1, some "h", some "g", "changed", false⟩ (some "sync.sh") ∧
    MonAction.runCommand "sync.sh" ∉
      sync_configs (apiErrorResult "boom") (some "sync.sh") :=
  ⟨(sync_configs_runs_iff_status_one ⟨1, some "h", some "g", "changed", false⟩
      "sync.sh" (some "sync.sh")).1.mpr rfl,
   (sync_configs_runs_iff_status_one (apiErrorResult "boom") "sync.sh"
      (some "sync.sh")).2.2 (by decide) "sync.sh"⟩

/-- A concrete first-run environment: no state files, successful login,
six successful fetches. -/
def firstRunEnv : Env :=
  ⟨.missing, 0, .ok ("sid0", 300), fun _ => .ok .null, none⟩

set_option maxRecDepth 4000 in
/-- C2 counterexample: a first run of the pipeline (no previous hash, so
`previous_hash` is absent and the message is the first-run message)
produces a result with the first-run status, and feeding that result to the
orchestrator runs the follow-up command — contradicting the claim that a
`FirstRun` result only logs. -/
theorem sync_configs_first_run_triggers_command :
    ∃ out, run_hash_check firstRunEnv = .ok out ∧
      out.result.previous_hash = none ∧
      out.result.status = PIHOLE_HASH_FIRST_RUN_EXIT ∧
      out.result.message = "No previous hash found; stored current summary hash." ∧
      MonAction.runCommand "sync.sh" ∈ sync_configs out.result (some "sync.sh") :=
  ⟨⟨⟨1, some "0500716c0be5ee6ea39fb6faf528f03b", none,
      "No previous hash found; stored current summary hash.", false⟩,
    some "0500716c0be5ee6ea39fb6faf528f03b\n",
    .json (.obj (cache_sid 0 "sid0" 300))⟩,
   rfl, rfl, rfl, rfl, by decide⟩

/-! ## Claims C1 and C3 -/

/-- When every fetch succeeds, the comprehension collects all payloads in
order. -/
theorem collectResults_ok :
    ∀ {l : List (Except String PyJson)}, (∀ x ∈ l, ∃ j, x = .ok j) →
      collectResults l = .ok (l.filterMap Except.toOption)
  | [], _ => rfl
  | x :: t, h => by
    obtain ⟨j, hj⟩ := h x (List.mem_cons_self _ _)
    subst hj
    have ht := collectResults_ok (fun y hy => h y (List.mem_cons_of_mem _ hy))
    simp only [collectResults, ht, List.filterMap_cons]
    rfl

/-- When some fetch fails, the comprehension raises. -/
theorem collectResults_error :
    ∀ {l : List (Except String PyJson)}, (∃ x ∈ l, ∃ e, x = .error e) →
      ∃ msg, collectResults l = .error msg
  | [], h => by
    obtain ⟨x, hx, _⟩ := h
    exact absurd hx (by simp)
  | x :: t, h => by
    cases x with
    | error e => exact ⟨e, rfl⟩
    | ok j =>
      obtain ⟨y, hy, e, he⟩ := h
      rcases List.mem_cons.mp hy with h1 | h2
      · rw [he] at h1
        exact absurd h1 (by simp)
      · obtain ⟨msg, hmsg⟩ := collectResults_error ⟨y, h2, e, he⟩
        exact ⟨msg, by simp only [collectResults, hmsg]⟩

/-- Behavior of the hash phase when all six fetches succeed. -/
theorem hashPhase_success (env : Env) (c2 : CacheFileState)
    (hfetch : ∀ ep ∈ DEFAULT_ENDPOINTS, ∃ j, env.fetch ep = .ok j) :
    (hashPhase env c2).result.summary_hash = some (summaryOf env) ∧
    (hashPhase env c2).hashFile = some (write_hash (summaryOf env)) ∧
    (hashPhase env c2).sidCache = c2 ∧
    (read_previous_hash env.hashFile = none →
      (hashPhase env c2).result.status = PIHOLE_HASH_FIRST_RUN_EXIT ∧
      (hashPhase env c2).result.previous_hash = none) ∧
    (∀ p, read_previous_hash env.hashFile = some p → summaryOf env = p →
      (hashPhase env c2).result.status = 0 ∧
      (hashPhase env c2).result.previous_hash = some p ∧
      (hashPhase env c2).result.summary_hash = some p) ∧
    (∀ p, read_previous_hash env.hashFile = some p → summaryOf env ≠ p →
      (hashPhase env c2).result.status = 1 ∧
      (hashPhase env c2).result.previous_hash = some p) := by
  have hfetch' : ∀ x ∈ DEFAULT_ENDPOINTS.map (fetch_endpoint env.fetch),
      ∃ j, x = .ok j := by
    intro x hx
    obtain ⟨ep, hep, hxe⟩ := List.mem_map.mp hx
    obtain ⟨j, hj⟩ := hfetch ep hep
    refine ⟨strip_took_field j, ?_⟩
    rw [← hxe]
    unfold fetch_endpoint
    rw [hj]
    rfl
  have hcollect := collectResults_ok hfetch'
  have hstep : hashPhase env c2 =
      (match read_previous_hash env.hashFile with
       | none =>
         ⟨⟨PIHOLE_HASH_FIRST_RUN_EXIT, some (summaryOf env), none,
           "No previous hash found; stored current summary hash.", false⟩,
          some (write_hash (summaryOf env)), c2⟩
       | some p =>
         if summaryOf env = p then
           ⟨⟨0, some (summaryOf env), some p,
             "Pi-hole configuration unchanged.", false⟩,
            some (write_hash (summaryOf env)), c2⟩
         else
           ⟨⟨1, some (summaryOf env), some p,
             "Pi-hole configuration has changed.", false⟩,
            some (write_hash (summaryOf env)), c2⟩) := by
    unfold hashPhase
    rw [hcollect]
    rfl
  cases hprev : read_previous_hash env.hashFile with
  | none =>
    have hred : hashPhase env c2 =
        ⟨⟨PIHOLE_HASH_FIRST_RUN_EXIT, some (summaryOf env), none,
          "No previous hash found; stored current summary hash.", false⟩,
         some (write_hash (summaryOf env)), c2⟩ := by
      rw [hstep, hprev]
    rw [hred]
    exact ⟨rfl, rfl, rfl, fun _ => ⟨rfl, rfl⟩,
      fun p hp => absurd hp (by simp), fun p hp => absurd hp (by simp)⟩
  | some p =>
    by_cases hsum : summaryOf env = p
    · have hred : hashPhase env c2 =
          ⟨⟨0, some (summaryOf env), some p, "Pi-hole configuration unchanged.",
            false⟩, some (write_hash (summaryOf env)), c2⟩ := by
        rw [hstep, hprev]
        show (if summaryOf env = p then
            (⟨⟨0, some (summaryOf env), some p,
              "Pi-hole configuration unchanged.", false⟩,
             some (write_hash (summaryOf env)), c2⟩ : RunOutcome)
          else
            ⟨⟨1, some (summaryOf env), some p,
              "Pi-hole configuration has changed.", false⟩,
             some (write_hash (summaryOf env)), c2⟩) = _
        rw [if_pos hsum]
      rw [hred]
      refine ⟨rfl, rfl, rfl, fun hn => absurd hn (by simp), ?_, ?_⟩
      · intro q hq _
        have hpq : p = q := by simpa using hq
        subst hpq
        exact ⟨rfl, rfl, by rw [hsum]⟩
      · intro q hq hne
        have hpq : p = q := by simpa using hq
        subst hpq
        exact absurd hsum hne
    · have hred : hashPhase env c2 =
          ⟨⟨1, some (summaryOf env), some p,
            "Pi-hole configuration has changed.", false⟩,
           some (write_hash (summaryOf env)), c2⟩ := by
        rw [hstep, hprev]
        show (if summaryOf env = p then
            (⟨⟨0, some (summaryOf env), some p,
              "Pi-hole configuration unchanged.", false⟩,
             some (write_hash (summaryOf env)), c2⟩ : RunOutcome)
          else
            ⟨⟨1, some (summaryOf env), some p,
              "Pi-hole configuration has changed.", false⟩,
             some (write_hash (summaryOf env)), c2⟩) = _
        rw [if_neg hsum]
      rw [hred]
      refine ⟨rfl, rfl, rfl, fun hn => absurd hn (by simp), ?_, ?_⟩
      · intro q hq hqe
        have hpq : p = q := by simpa using hq
        subst hpq
        exact absurd hqe hsum
      · intro q hq _
        have hpq : p = q := by simpa using hq
        subst hpq
        exact ⟨rfl, rfl⟩

/-- Behavior of the hash phase when some fetch fails: the status-3 result,
with the hash file untouched. -/
theorem hashPhase_error (env : Env) (c2 : CacheFileState)
    (hfail : ∃ ep ∈ DEFAULT_ENDPOINTS, ∃ e, env.fetch ep = .error e) :
    ∃ msg, hashPhase env c2 = ⟨apiErrorResult msg, env.hashFile, c2⟩ := by
  obtain ⟨ep, hep, e, he⟩ := hfail
  have hfail' : ∃ x ∈ DEFAULT_ENDPOINTS.map (fetch_endpoint env.fetch),
      ∃ e2, x = .error e2 := by
    refine ⟨fetch_endpoint env.fetch ep, List.mem_map_of_mem _ hep, e, ?_⟩
    unfold fetch_endpoint
    rw [he]
    rfl
  obtain ⟨msg, hmsg⟩ := collectResults_error hfail'
  refine ⟨msg, ?_⟩
  unfold hashPhase
  rw [hmsg]

/-- Reduction of `run_hash_check` once `load_cached_sid` succeeds. -/
theorem run_hash_check_eq (env : Env) (cs : Option String)
    (hload : load_cached_sid env.sidCache env.now = .ok cs) :
    run_hash_check env = afterSid env (sidStep env cs) := by
  unfold run_hash_check
  rw [hload]

/-- The credential step with a truthy cached SID. -/
theorem sidStep_cached (env : Env) (cs : Option String)
    (htr : truthy cs = true) : sidStep env cs = .ok (cs, env.sidCache) := by
  unfold sidStep
  rw [htr]
  rfl

/-- The credential step on a cache miss with successful login. -/
theorem sidStep_login_ok (env : Env) (cs : Option String) (sid : String)
    (validity : Int) (htr : truthy cs = false)
    (hl : env.login = .ok (sid, validity)) :
    sidStep env cs =
      .ok (some sid, .json (.obj (cache_sid env.now sid validity))) := by
  unfold sidStep
  rw [htr, hl]
  rfl

/-- The credential step on a cache miss with failing login. -/
theorem sidStep_login_error (env : Env) (cs : Option String) (e : String)
    (htr : truthy cs = false) (hl : env.login = .error e) :
    sidStep env cs = .error e := by
  unfold sidStep
  rw [htr, hl]
  rfl

/-- After a failed credential step: the status-3 result, untouched files. -/
theorem afterSid_error (env : Env) (e : String) :
    afterSid env (.error e) = .ok ⟨apiErrorResult e, env.hashFile, env.sidCache⟩ :=
  rfl

/-- After a successful credential step the hash phase runs. -/
theorem afterSid_ok (env : Env) (s : String) (c2 : CacheFileState) :
    afterSid env (.ok (some s, c2)) = .ok (hashPhase env c2) := by
  show (if (some s : Option String) = none then
      Except.ok (⟨apiErrorResult "Missing session identifier for API requests",
        env.hashFile, c2⟩ : RunOutcome)
    else Except.ok (hashPhase env c2)) = Except.ok (hashPhase env c2)
  rw [if_neg (by simp)]

/-- C1: on every successful invocation of `run_hash_check` (a usable
credential and all six endpoint fetches succeeding), the new summary hash
is computed and written to the hash file — overwriting it unconditionally —
and the result is: the first-run status with no previous hash when the hash
file was absent; status `0` (unchanged) with `previous_hash = summary_hash`
when the stored hash equals the new one; status `1` (changed) when they
differ. -/
theorem run_hash_check_success_behavior (env : Env) (cs : Option String)
    (hload : load_cached_sid env.sidCache env.now = .ok cs)
    (hlogin : truthy cs = false → ∃ sv, env.login = .ok sv)
    (hfetch : ∀ ep ∈ DEFAULT_ENDPOINTS, ∃ j, env.fetch ep = .ok j) :
    ∃ out, run_hash_check env = .ok out ∧
      out.result.summary_hash = some (summaryOf env) ∧
      out.hashFile = some (write_hash (summaryOf env)) ∧
      (read_previous_hash env.hashFile = none →
        out.result.status = PIHOLE_HASH_FIRST_RUN_EXIT ∧
        out.result.previous_hash = none) ∧
      (∀ p, read_previous_hash env.hashFile = some p → summaryOf env = p →
        out.result.status = 0 ∧ out.result.previous_hash = some p ∧
        out.result.summary_hash = some p) ∧
      (∀ p, read_previous_hash env.hashFile = some p → summaryOf env ≠ p →
        out.result.status = 1 ∧ out.result.previous_hash = some p) := by
  have hrun : ∃ c2, run_hash_check env = .ok (hashPhase env c2) := by
    rw [run_hash_check_eq env cs hload]
    cases htr : truthy cs with
    | true =>
      obtain ⟨s, hcs⟩ : ∃ s, cs = some s := by
        cases cs with
        | none => exact absurd htr (by simp [truthy])
        | some s => exact ⟨s, rfl⟩
      subst hcs
      rw [sidStep_cached env _ htr, afterSid_ok]
      exact ⟨env.sidCache, rfl⟩
    | false =>
      obtain ⟨⟨sid, validity⟩, hl⟩ := hlogin htr
      rw [sidStep_login_ok env cs sid validity htr hl, afterSid_ok]
      exact ⟨_, rfl⟩
  obtain ⟨c2, hrun⟩ := hrun
  obtain ⟨h1, h2, _, h4, h5, h6⟩ := hashPhase_success env c2 hfetch
  exact ⟨hashPhase env c2, hrun, h1, h2, h4, h5, h6⟩

/-- C1 witness: a concrete first run against an empty state store
persists the computed summary hash and reports the first-run status. -/
theorem run_hash_check_success_behavior_witness :
    load_cached_sid CacheFileState.missing 0 = .ok none ∧
    (∃ out,
      run_hash_check
        (⟨.missing, 0, .ok ("sid0", 300), fun _ => .ok .null, none⟩ : Env) =
          .ok out ∧
      out.result.summary_hash =
        some (summaryOf
          (⟨.missing, 0, .ok ("sid0", 300), fun _ => .ok .null, none⟩ : Env)) ∧
      out.hashFile =
        some (write_hash (summaryOf
          (⟨.missing, 0, .ok ("sid0", 300), fun _ => .ok .null, none⟩ : Env))) ∧
      (read_previous_hash none = none →
        out.result.status = PIHOLE_HASH_FIRST_RUN_EXIT ∧
        out.result.previous_hash = none) ∧
      (∀ p, read_previous_hash none = some p →
        summaryOf (⟨.missing, 0, .ok ("sid0", 300), fun _ => .ok .null,
          none⟩ : Env) = p →
        out.result.status = 0 ∧ out.result.previous_hash = some p ∧
        out.result.summary_hash = some p) ∧
      (∀ p, read_previous_hash none = some p →
        summaryOf (⟨.missing, 0, .ok ("sid0", 300), fun _ => .ok .null,
          none⟩ : Env) ≠ p →
        out.result.status = 1 ∧ out.result.previous_hash = some p)) :=
  ⟨rfl,
   run_hash_check_success_behavior
     (⟨.missing, 0, .ok ("sid0", 300), fun _ => .ok .null, none⟩ : Env) none rfl
     (fun _ => ⟨("sid0", 300), rfl⟩) (fun _ _ => ⟨.null, rfl⟩)⟩

/-- C3: on every `run_hash_check` invocation in which authentication or any
of the six endpoint fetches fails, the result has status `3` with the error
flag set and both hashes absent, and the hash file is left untouched, so
the previously stored hash remains readable by the next run. -/
theorem run_hash_check_api_error_no_write (env : Env) (cs : Option String)
    (hload : load_cached_sid env.sidCache env.now = .ok cs)
    (hfail : (truthy cs = false ∧ ∃ e, env.login = .error e) ∨
      (∃ ep ∈ DEFAULT_ENDPOINTS, ∃ e, env.fetch ep = .error e)) :
    ∃ out, run_hash_check env = .ok out ∧
      out.result.status = 3 ∧
      out.result.error = true ∧
      out.result.summary_hash = none ∧
      out.result.previous_hash = none ∧
      out.hashFile = env.hashFile ∧
      read_previous_hash out.hashFile = read_previous_hash env.hashFile := by
  rw [run_hash_check_eq env cs hload]
  cases htr : truthy cs with
  | false =>
    cases hl : env.login with
    | error e =>
      rw [sidStep_login_error env cs e htr hl, afterSid_error]
      exact ⟨_, rfl, rfl, rfl, rfl, rfl, rfl, rfl⟩
    | ok sv =>
      obtain ⟨sid, validity⟩ := sv
      have hfail2 : ∃ ep ∈ DEFAULT_ENDPOINTS, ∃ e, env.fetch ep = .error e := by
        rcases hfail with ⟨_, e, he⟩ | h2
        · rw [hl] at he
          exact absurd he (by simp)
        · exact h2
      rw [sidStep_login_ok env cs sid validity htr hl, afterSid_ok]
      obtain ⟨msg, hmsg⟩ := hashPhase_error env _ hfail2
      rw [hmsg]
      exact ⟨_, rfl, rfl, rfl, rfl, rfl, rfl, rfl⟩
  | true =>
    obtain ⟨s, hcs⟩ : ∃ s, cs = some s := by
      cases cs with
      | none => exact absurd htr (by simp [truthy])
      | some s => exact ⟨s, rfl⟩
    subst hcs
    have hfail2 : ∃ ep ∈ DEFAULT_ENDPOINTS, ∃ e, env.fetch ep = .error e := by
      rcases hfail with ⟨htr2, _⟩ | h2
      · rw [htr] at htr2
        exact absurd htr2 (by simp)
      · exact h2
    rw [sidStep_cached env _ htr, afterSid_ok]
    obtain ⟨msg, hmsg⟩ := hashPhase_error env _ hfail2
    rw [hmsg]
    exact ⟨_, rfl, rfl, rfl, rfl, rfl, rfl, rfl⟩

/-- C3 witness: a failing fetch on the fourth endpoint yields the status-3
result and leaves the stored hash readable. -/
theorem run_hash_check_api_error_no_write_witness :
    load_cached_sid (.json (.obj (cache_sid 50 "cached" 300))) 10 =
      .ok (some "cached") ∧
    (∃ out,
      run_hash_check
        (⟨.json (.obj (cache_sid 50 "cached" 300)), 10, .ok ("sid0", 300),
          fun ep => if ep = "/api/lists" then
            .error "Failed to fetch /api/lists: boom" else .ok .null,
          some "9e107d9d372bb6826bd81d3542a419d6\n"⟩ : Env) = .ok out ∧
      out.result.status = 3 ∧
      out.result.error = true ∧
      out.result.summary_hash = none ∧
      out.result.previous_hash = none ∧
      out.hashFile = some "9e107d9d372bb6826bd81d3542a419d6\n" ∧
      read_previous_hash out.hashFile =
        read_previous_hash (some "9e107d9d372bb6826bd81d3542a419d6\n")) :=
  ⟨rfl,
   run_hash_check_api_error_no_write
     (⟨.json (.obj (cache_sid 50 "cached" 300)), 10, .ok ("sid0", 300),
       fun ep => if ep = "/api/lists" then
         .error "Failed to fetch /api/lists: boom" else .ok .null,
       some "9e107d9d372bb6826bd81d3542a419d6\n"⟩ : Env) (some "cached") rfl
     (Or.inr ⟨"/api/lists", by decide,
       "Failed to fetch /api/lists: boom", rfl⟩)⟩
